import Mathlib
set_option maxRecDepth 10000

/-!
Verification of the mikecast dedup engine (src/mikecast_briefing.py).

This file gives a shallow embedding of the deduplication core:
`url_fingerprint`, `title_similarity` (difflib.SequenceMatcher ratio),
`load_history`, `save_history`, `deduplicate` and `select_top_articles`,
and proves the specified properties about them.

Modelling conventions:
- Python `str` is Lean `String`; `str.lower` / `str.strip` are modelled on
  their ASCII behaviour (all inputs of interest are ASCII).
- Python string comparison (`>=` on `str`) is code-point lexicographic; it
  is embedded as `lexLe` below.
- `hashlib.md5(...).hexdigest()` is embedded as a full MD5 implementation
  over byte lists, with 32-bit words as `Nat` reduced mod 2^32.
- `difflib.SequenceMatcher(None, a, b).ratio()` is embedded following the
  CPython algorithm (b2j index map with the autojunk rule, the
  longest-match scan with its exact tie-breaking, both extension loops,
  and the recursive block decomposition).  Since `isjunk` is `None`, the
  junk set is empty and the junk-extension loops never fire, so they are
  omitted.  The float division in `ratio` is modelled exactly in `ℚ`, and
  the float literals `0.7` / `0.85` as the rationals `7/10` / `17/20`.
- The current time enters `deduplicate` / `save_history` only as the ISO
  timestamp written into new records and the `now - 7 days` cutoff string;
  both are passed as explicit `String` parameters.
-/



/-! ### Python code-point lexicographic string order (`str >=`) -/

/-- Code-point lexicographic `≤` on char lists, as Python compares `str`. -/
def lexLeChars : List Char → List Char → Bool
  | [], _ => true
  | _ :: _, [] => false
  | a :: as, b :: bs =>
    if a.toNat < b.toNat then true
    else if a.toNat = b.toNat then lexLeChars as bs
    else false

/-- Code-point lexicographic `≤` on strings, as Python compares `str`. -/
def lexLe (a b : String) : Bool :=
  lexLeChars a.data b.data

/-! ### ASCII models of `str.strip` / `str.lower` -/

/-- ASCII model of Python `str.strip()`: drop whitespace at both ends. -/
def pyStrip (l : List Char) : List Char :=
  ((l.dropWhile Char.isWhitespace).reverse.dropWhile Char.isWhitespace).reverse

/-- ASCII model of Python `str.strip()` on strings. -/
def pyStripS (s : String) : String :=
  (pyStrip s.data).asString

/-- ASCII model of Python `str.lower()`. -/
def pyLower (l : List Char) : List Char :=
  l.map Char.toLower

/-! ### UTF-8 encoding (`str.encode()`) -/

/-- UTF-8 encoding of one character, as a list of byte values. -/
def utf8Char (c : Char) : List Nat :=
  let n := c.toNat
  if n < 128 then [n]
  else if n < 2048 then [192 + n / 64, 128 + n % 64]
  else if n < 65536 then [224 + n / 4096, 128 + n / 64 % 64, 128 + n % 64]
  else [240 + n / 262144, 128 + n / 4096 % 64, 128 + n / 64 % 64, 128 + n % 64]

/-- UTF-8 encoding of a string (`url.encode()`), as a list of byte values. -/
def utf8Encode (s : String) : List Nat :=
  s.data.foldr (fun c acc => utf8Char c ++ acc) []

/-! ### MD5 (`hashlib.md5(...).hexdigest()`) -/

/-- The 64 MD5 sine constants `floor(abs(sin(i+1)) * 2^32)` (RFC 1321). -/
def md5T : List Nat :=
  [3614090360, 3905402710, 606105819, 3250441966, 4118548399, 1200080426,
   2821735955, 4249261313, 1770035416, 2336552879, 4294925233, 2304563134,
   1804603682, 4254626195, 2792965006, 1236535329, 4129170786, 3225465664,
   643717713, 3921069994, 3593408605, 38016083, 3634488961, 3889429448,
   568446438, 3275163606, 4107603335, 1163531501, 2850285829, 4243563512,
   1735328473, 2368359562, 4294588738, 2272392833, 1839030562, 4259657740,
   2763975236, 1272893353, 4139469664, 3200236656, 681279174, 3936430074,
   3572445317, 76029189, 3654602809, 3873151461, 530742520, 3299628645,
   4096336452, 1126891415, 2878612391, 4237533241, 1700485571, 2399980690,
   4293915773, 2240044497, 1873313359, 4264355552, 2734768916, 1309151649,
   4149444226, 3174756917, 718787259, 3951481745]

/-- The 64 MD5 per-round left-rotation amounts (RFC 1321). -/
def md5S : List Nat :=
  [7, 12, 17, 22, 7, 12, 17, 22, 7, 12, 17, 22, 7, 12, 17, 22,
   5, 9, 14, 20, 5, 9, 14, 20, 5, 9, 14, 20, 5, 9, 14, 20,
   4, 11, 16, 23, 4, 11, 16, 23, 4, 11, 16, 23, 4, 11, 16, 23,
   6, 10, 15, 21, 6, 10, 15, 21, 6, 10, 15, 21, 6, 10, 15, 21]

/-- 32-bit truncation. -/
def m32 (x : Nat) : Nat := x % 4294967296

/-- 32-bit bitwise complement. -/
def not32 (x : Nat) : Nat := Nat.xor x 4294967295

/-- 32-bit left rotation. -/
def rotl32 (x s : Nat) : Nat :=
  m32 (Nat.lor (m32 (x <<< s)) (x >>> (32 - s)))

/-- A 64-bit length as eight little-endian bytes. -/
def le8 (n : Nat) : List Nat :=
  [n % 256, n / 256 % 256, n / 65536 % 256, n / 16777216 % 256,
   n / 4294967296 % 256, n / 1099511627776 % 256,
   n / 281474976710656 % 256, n / 72057594037927936 % 256]

/-- MD5 padding: append `0x80`, zeros to 56 mod 64, then the bit length. -/
def md5Pad (msg : List Nat) : List Nat :=
  let len := msg.length
  let z := (120 - (len + 1) % 64) % 64
  msg ++ [128] ++ List.replicate z 0 ++ le8 (8 * len % 18446744073709551616)

/-- Decode one 64-byte block into 16 little-endian 32-bit words. -/
def md5Words (block : List Nat) : List Nat :=
  (List.range 16).map fun j =>
    block.getD (4 * j) 0 + 256 * block.getD (4 * j + 1) 0 +
    65536 * block.getD (4 * j + 2) 0 + 16777216 * block.getD (4 * j + 3) 0

/-- One MD5 round step on the state `(a, b, c, d)`. -/
def md5Step (w : List Nat) (st : Nat × Nat × Nat × Nat) (i : Nat) :
    Nat × Nat × Nat × Nat :=
  let (a, b, c, d) := st
  let f :=
    if i < 16 then Nat.lor (Nat.land b c) (Nat.land (not32 b) d)
    else if i < 32 then Nat.lor (Nat.land d b) (Nat.land (not32 d) c)
    else if i < 48 then Nat.xor (Nat.xor b c) d
    else Nat.xor c (Nat.lor b (not32 d))
  let g :=
    if i < 16 then i
    else if i < 32 then (5 * i + 1) % 16
    else if i < 48 then (3 * i + 5) % 16
    else 7 * i % 16
  let b' := m32 (b + rotl32 (m32 (a + f + md5T.getD i 0 + w.getD g 0)) (md5S.getD i 0))
  (d, b', b, c)

/-- Process one block: 64 round steps, then add into the running state. -/
def md5Block (st : Nat × Nat × Nat × Nat) (block : List Nat) :
    Nat × Nat × Nat × Nat :=
  let w := md5Words block
  let (a, b, c, d) := (List.range 64).foldl (md5Step w) st
  let (a0, b0, c0, d0) := st
  (m32 (a0 + a), m32 (b0 + b), m32 (c0 + c), m32 (d0 + d))

/-- One hex digit. -/
def hexDigit (n : Nat) : Char :=
  "0123456789abcdef".data.getD n '0'

/-- A 32-bit word as eight lowercase hex chars, little-endian byte order. -/
def hexWordLE (x : Nat) : List Char :=
  [hexDigit (x % 256 / 16), hexDigit (x % 16),
   hexDigit (x / 256 % 256 / 16), hexDigit (x / 256 % 16),
   hexDigit (x / 65536 % 256 / 16), hexDigit (x / 65536 % 16),
   hexDigit (x / 16777216 % 256 / 16), hexDigit (x / 16777216 % 16)]

/-- MD5 hexdigest of a byte list, as `hashlib.md5(bs).hexdigest()`.  The
padded message has length a multiple of 64; block `k` is bytes
`[64 * k, 64 * k + 64)`. -/
def md5Hex (msg : List Nat) : String :=
  let padded := md5Pad msg
  let st := (List.range (padded.length / 64)).foldl
    (fun st k => md5Block st ((padded.drop (64 * k)).take 64))
    (1732584193, 4023233417, 2562383102, 271733878)
  (hexWordLE st.1 ++ hexWordLE st.2.1 ++ hexWordLE st.2.2.1 ++
    hexWordLE st.2.2.2).asString

/-! ### URL normalisation and `url_fingerprint` -/

/-- Model of `re.sub(r"https?://", "", url)`: remove every (case-sensitive)
occurrence of `http://` or `https://`, scanning left to right. -/
def stripSchemes : List Char → List Char
  | 'h' :: 't' :: 't' :: 'p' :: 's' :: ':' :: '/' :: '/' :: rest => stripSchemes rest
  | 'h' :: 't' :: 't' :: 'p' :: ':' :: '/' :: '/' :: rest => stripSchemes rest
  | c :: rest => c :: stripSchemes rest
  | [] => []

/-- Model of `str.rstrip("/")`: drop trailing slashes. -/
def rstripSlash (l : List Char) : List Char :=
  (l.reverse.dropWhile (fun c => c = '/')).reverse

/-- Model of `re.sub(r"[?#].*", "", url)`, written as a left-to-right scan
with a skipping flag: a `?` or `#` starts a deleted stretch that runs up to
(but not including) the next newline, since `.` does not match `\n`. -/
def stripQueryGo : Bool → List Char → List Char
  | _, [] => []
  | true, c :: rest =>
    if c = '\n' then c :: stripQueryGo false rest else stripQueryGo true rest
  | false, c :: rest =>
    if c = '?' ∨ c = '#' then stripQueryGo true rest
    else c :: stripQueryGo false rest

/-- Model of `re.sub(r"[?#].*", "", url)`. -/
def stripQuery (l : List Char) : List Char :=
  stripQueryGo false l

/-- The URL normalisation inside `url_fingerprint` (mikecast_briefing.py
lines 154-155): strip `https?://` occurrences, strip trailing `/`,
lower-case, then cut query/fragment suffixes. -/
def normalize_url (url : String) : String :=
  (stripQuery (pyLower (rstripSlash (stripSchemes url.data)))).asString

/-- `url_fingerprint` (mikecast_briefing.py lines 152-156): MD5 hexdigest
of the UTF-8 encoding of the normalised URL. -/
def url_fingerprint (url : String) : String :=
  md5Hex (utf8Encode (normalize_url url))

/-! ### difflib.SequenceMatcher ratio -/

/-- A matching block `(i, j, size)` as difflib's `find_longest_match`
returns: `a[i:i+size] == b[j:j+size]`. -/
structure MatchBlock where
  i : Nat
  j : Nat
  size : Nat
deriving Repr, DecidableEq

/-- The ascending list of positions of `c` in `b`. -/
def occIdx (b : List Char) (c : Char) : List Nat :=
  (List.range b.length).filter (fun j => b.get? j == some c)

/-- difflib's `b2j` map (with `isjunk = None`): positions of `c` in `b`,
except that when `len(b) >= 200` an element occurring more than
`len(b) // 100 + 1` times is "popular" and is dropped (autojunk). -/
def b2j (b : List Char) (c : Char) : List Nat :=
  let idxs := occIdx b c
  if 200 ≤ b.length ∧ b.length / 100 + 1 < idxs.length then [] else idxs

/-- The `j` values visited by the inner loop of `find_longest_match` for a
row: `continue` below `blo`, `break` at the first `j >= bhi` (the b2j list
is ascending). -/
def rowJs (b2jf : Char → List Nat) (blo bhi : Nat) (c : Char) : List Nat :=
  ((b2jf c).takeWhile (fun j => decide (j < bhi))).filter (fun j => decide (blo ≤ j))

/-- The extended diagonal chain length at `j`: Python's
`k = j2len.get(j-1, 0) + 1`, where the lookup at `j - 1 = -1` (for `j = 0`)
defaults to `0`. -/
def chainLen (j2lenOld : Nat → Nat) (j : Nat) : Nat :=
  (if j = 0 then 0 else j2lenOld (j - 1)) + 1

/-- One inner-loop step of `find_longest_match`: given last row's chain
lengths `j2lenOld`, extend the diagonal chain at `j` and update the best
block when strictly longer (Python `if k > bestsize`). -/
def rowStep (j2lenOld : Nat → Nat) (i : Nat) (st : (Nat → Nat) × MatchBlock)
    (j : Nat) : (Nat → Nat) × MatchBlock :=
  (fun x => if x = j then chainLen j2lenOld j else st.1 x,
   if st.2.size < chainLen j2lenOld j then
     ⟨i + 1 - chainLen j2lenOld j, j + 1 - chainLen j2lenOld j, chainLen j2lenOld j⟩
   else st.2)

/-- One row of the `find_longest_match` scan: the inner loop over the b2j
positions of `a[i]`, starting a fresh `newj2len` and reading the previous
row's chain lengths `fOld`. -/
def scanRow (b2jf : Char → List Nat) (blo bhi : Nat) (oc : Option Char)
    (fOld : Nat → Nat) (i : Nat) (best : MatchBlock) : (Nat → Nat) × MatchBlock :=
  let js : List Nat := match oc with
    | some c => rowJs b2jf blo bhi c
    | none => []
  js.foldl (rowStep fOld i) ((fun _ => 0), best)

/-- The nested scan of `find_longest_match`: rows `i` in `[alo, ahi)`. -/
def scanRows (a b : List Char) (alo ahi blo bhi : Nat) : MatchBlock :=
  ((List.range' alo (ahi - alo)).foldl
    (fun st i => scanRow (b2j b) blo bhi (a.get? i) st.1 i st.2)
    ((fun _ => 0), ⟨alo, blo, 0⟩)).2

/-- The backward extension loop of `find_longest_match` (the junk set is
empty, so the `isbjunk` guard always passes).  `fuel` starts at `m.i` and
each iteration decrements both `fuel` and `i`, so `fuel = i` throughout:
the `fuel = 0` branch is only reached with `i = 0`, where the loop guard
`alo < i` is false anyway. -/
def extBackF (a b : List Char) (alo blo : Nat) : Nat → MatchBlock → MatchBlock
  | 0, m => m
  | fuel + 1, ⟨i, j, k⟩ =>
    if alo < i ∧ blo < j ∧ (a.get? (i - 1)).isSome ∧ a.get? (i - 1) = b.get? (j - 1) then
      extBackF a b alo blo fuel ⟨i - 1, j - 1, k + 1⟩
    else ⟨i, j, k⟩

/-- The backward extension loop, started with its exact iteration bound. -/
def extBack (a b : List Char) (alo blo : Nat) (m : MatchBlock) : MatchBlock :=
  extBackF a b alo blo m.i m

/-- The forward extension loop of `find_longest_match`.  `fuel` starts at
`ahi - (m.i + m.size)` and each iteration decrements both `fuel` and that
quantity, so they stay equal: the `fuel = 0` branch is only reached with
`ahi ≤ i + k`, where the loop guard `i + k < ahi` is false anyway. -/
def extFwdF (a b : List Char) (ahi bhi : Nat) : Nat → MatchBlock → MatchBlock
  | 0, m => m
  | fuel + 1, ⟨i, j, k⟩ =>
    if i + k < ahi ∧ j + k < bhi ∧ (a.get? (i + k)).isSome ∧ a.get? (i + k) = b.get? (j + k) then
      extFwdF a b ahi bhi fuel ⟨i, j, k + 1⟩
    else ⟨i, j, k⟩

/-- The forward extension loop, started with its exact iteration bound. -/
def extFwd (a b : List Char) (ahi bhi : Nat) (m : MatchBlock) : MatchBlock :=
  extFwdF a b ahi bhi (ahi - (m.i + m.size)) m

/-- difflib's `find_longest_match` on `a[alo:ahi]` / `b[blo:bhi]`. -/
def findLongestMatch (a b : List Char) (alo ahi blo bhi : Nat) : MatchBlock :=
  extFwd a b ahi bhi (extBack a b alo blo (scanRows a b alo ahi blo bhi))

/-! ### Bounds of `find_longest_match` (needed for termination and range) -/

/-- Bounds invariant for candidate blocks during `find_longest_match`: the
block is either the untouched initial `⟨alo, blo, 0⟩` or a nonempty block
inside `[alo, ahi) × [blo, bhi)`. -/
def GoodBlock (alo ahi blo bhi : Nat) (m : MatchBlock) : Prop :=
  m = ⟨alo, blo, 0⟩ ∨
    (0 < m.size ∧ alo ≤ m.i ∧ m.i + m.size ≤ ahi ∧ blo ≤ m.j ∧ m.j + m.size ≤ bhi)

/-- Invariant of a `j2len` chain-length map: nonzero entries sit in
`[blo, bhi)` and are bounded by the diagonal and by `bound`. -/
def RowInv (blo bhi bound : Nat) (f : Nat → Nat) : Prop :=
  ∀ j, f j ≠ 0 → blo ≤ j ∧ j < bhi ∧ f j ≤ j + 1 - blo ∧ f j ≤ bound

/-! ### The matching-block total and `ratio` -/

/-- The total size of the matching blocks that `get_matching_blocks`
collects on `a[alo:ahi]` / `b[blo:bhi]`: the longest match plus recursion
on the pieces left of and right of it.  The recursion depth is bounded by
the range measure `(ahi - alo) + (bhi - blo)`, which every recursive call
strictly decreases (see `matchesSum_rec` below, which shows the `fuel = 0`
case is never reached early), so `fuel` starts at that measure. -/
def matchesFuel (a b : List Char) : Nat → Nat → Nat → Nat → Nat → Nat
  | 0, _, _, _, _ => 0
  | fuel + 1, alo, ahi, blo, bhi =>
    if (findLongestMatch a b alo ahi blo bhi).size = 0 then 0
    else
      (if alo < (findLongestMatch a b alo ahi blo bhi).i ∧
          blo < (findLongestMatch a b alo ahi blo bhi).j then
        matchesFuel a b fuel alo (findLongestMatch a b alo ahi blo bhi).i
          blo (findLongestMatch a b alo ahi blo bhi).j
      else 0)
      + (findLongestMatch a b alo ahi blo bhi).size
      + (if (findLongestMatch a b alo ahi blo bhi).i +
            (findLongestMatch a b alo ahi blo bhi).size < ahi ∧
          (findLongestMatch a b alo ahi blo bhi).j +
            (findLongestMatch a b alo ahi blo bhi).size < bhi then
        matchesFuel a b fuel
          ((findLongestMatch a b alo ahi blo bhi).i +
            (findLongestMatch a b alo ahi blo bhi).size) ahi
          ((findLongestMatch a b alo ahi blo bhi).j +
            (findLongestMatch a b alo ahi blo bhi).size) bhi
      else 0)

/-- The matching-block total on `a[alo:ahi]` / `b[blo:bhi]`. -/
def matchesSum (a b : List Char) (alo ahi blo bhi : Nat) : Nat :=
  matchesFuel a b ((ahi - alo) + (bhi - blo)) alo ahi blo bhi

/-- `SequenceMatcher(None, a, b).ratio()` on char lists, with the float
division modelled exactly in `ℚ`: `2 * M / (len a + len b)`, and `1` when
both are empty. -/
def ratioOf (a b : List Char) : ℚ :=
  if a.length + b.length = 0 then 1
  else 2 * (matchesSum a b 0 a.length 0 b.length : ℚ) /
    ((a.length : ℚ) + (b.length : ℚ))

/-- The title-cleaning step of `title_similarity` (line 147): lower-case,
strip outer whitespace, then keep only `[a-z0-9 ]`. -/
def cleanTitle (s : String) : List Char :=
  (pyStrip (pyLower s.data)).filter
    (fun c => decide (('a' ≤ c ∧ c ≤ 'z') ∨ ('0' ≤ c ∧ c ≤ '9') ∨ c = ' '))

/-- `title_similarity` (mikecast_briefing.py lines 145-149). -/
def title_similarity (a b : String) : ℚ :=
  ratioOf (cleanTitle a) (cleanTitle b)

/-! ### Executable threshold comparisons

`Rat` arithmetic does not evaluate by kernel reduction, so the engine's
two threshold tests are written by cross-multiplication over `Nat` and
proved equal to the `ℚ` comparisons on `title_similarity` below
(`titleSimLt_iff`, `titleSimGt_iff`). -/

/-- `ratioOf a b < c / d` by cross-multiplication (`0 < d`): when both
sides are empty the ratio is `1`, and `1 < c/d ↔ d < c`; otherwise
`2M/L < c/d ↔ 2·M·d < c·L`. -/
def ratioLtB (a b : List Char) (c d : Nat) : Bool :=
  if a.length + b.length = 0 then decide (d < c)
  else decide (2 * matchesSum a b 0 a.length 0 b.length * d <
    c * (a.length + b.length))

/-- `c / d < ratioOf a b` by cross-multiplication (`0 < d`). -/
def ratioGtB (a b : List Char) (c d : Nat) : Bool :=
  if a.length + b.length = 0 then decide (c < d)
  else decide (c * (a.length + b.length) <
    2 * matchesSum a b 0 a.length 0 b.length * d)

/-- `title_similarity x y < c / d`, executable. -/
def titleSimLt (x y : String) (c d : Nat) : Bool :=
  ratioLtB (cleanTitle x) (cleanTitle y) c d

/-- `c / d < title_similarity x y`, executable. -/
def titleSimGt (x y : String) (c d : Nat) : Bool :=
  ratioGtB (cleanTitle x) (cleanTitle y) c d

/-! ### Data model -/

/-- A candidate item as the Collector supplies it (all fields default to
`""` under Python's `art.get(key, "")` access). -/
structure Article where
  title : String
  url : String
  description : String
  source : String
  published : String
deriving Repr, DecidableEq

/-- A persisted history record; a missing key under `h.get(key, "")`
defaults to `""`. -/
structure HistRecord where
  title : String
  url : String
  url_fp : String
  description : String
  date : String
deriving Repr, DecidableEq

/-- A parsed JSON value from the history file, as far as `load_history`
inspects it: either an array of flat record objects, or anything else
(which `isinstance(data, list)` rejects). -/
inductive StoredJson where
  | arr (records : List HistRecord)
  | nonArr
deriving Repr, DecidableEq

/-- The state of the history file for one load. -/
inductive HistFile where
  | missing
  | unparseable
  | parsed (v : StoredJson)
deriving Repr, DecidableEq

/-- `load_history` (mikecast_briefing.py lines 317-326): a missing file,
a parse failure, and parsed non-array content all yield the empty
history. -/
def load_history : HistFile → List HistRecord
  | .missing => []
  | .unparseable => []
  | .parsed (.arr records) => records
  | .parsed .nonArr => []

/-- `save_history` (lines 329-334): keep exactly the records whose `date`
string compares `>=` (Python string order) against the ISO cutoff
`(now - 7 days).isoformat()`, passed here as `cutoff`. -/
def save_history (cutoff : String) (history : List HistRecord) : List HistRecord :=
  history.filter (fun h => lexLe cutoff h.date)

/-! ### deduplicate -/

/-- The `hist_titles` dict `{h.get("title", ""): h for h in history}`
(line 345): keys in first-occurrence order, each mapped to the *last*
record carrying that title (later records overwrite earlier values). -/
def histTitles (history : List HistRecord) : List (String × HistRecord) :=
  history.foldl (fun acc h =>
    if acc.any (fun p => p.1 == h.title) then
      acc.map (fun p => if p.1 = h.title then (p.1, h) else p)
    else acc ++ [(h.title, h)]) []

/-- The update test shared by both dedup paths (lines 374-377 and
384-387): both descriptions non-empty (Python truthiness) and description
similarity `< 0.7` (see `updateCheck_iff`). -/
def updateCheck (oldDesc newDesc : String) : Bool :=
  oldDesc != "" && newDesc != "" && titleSimLt oldDesc newDesc 7 10

/-- The running state of one `deduplicate` pass: the batch-internal
`seen_fps` (in insertion order) and the accumulated
`new_history_entries`. -/
structure DedupSt where
  seen : List String
  newEntries : List HistRecord
deriving Repr, DecidableEq

/-- The handling of one candidate inside `deduplicate` (lines 352-404):
skip on empty stripped title/url, skip batch-internal fingerprint repeats,
then classify against history by exact fingerprint (first matching record)
or, failing that, by first fuzzily-matching historical title; duplicates
that are not updates are dropped, updates get the `[Updated] ` title
marker, and every accepted candidate appends one new history entry. -/
def processArticle (history : List HistRecord)
    (titles : List (String × HistRecord)) (now : String) (st : DedupSt)
    (art : Article) : DedupSt × Option Article :=
  let title := pyStripS art.title
  let url := pyStripS art.url
  if title = "" ∨ url = "" then (st, none)
  else
    let fp := url_fingerprint url
    if fp ∈ st.seen then (st, none)
    else
      let dupUpd : Bool × Bool :=
        match history.find? (fun h => h.url_fp == fp) with
        | some h => (true, updateCheck h.description art.description)
        | none =>
          match titles.find? (fun p => titleSimGt title p.1 17 20) with
          | some p => (true, updateCheck p.2.description art.description)
          | none => (false, false)
      if dupUpd.1 && !dupUpd.2 then ({ st with seen := st.seen ++ [fp] }, none)
      else
        let outArt := if dupUpd.2 then { art with title := "[Updated] " ++ title } else art
        (⟨st.seen ++ [fp],
          st.newEntries ++ [⟨title, url, fp, art.description, now⟩]⟩, some outArt)

/-- Process one category's article list in order, threading the state. -/
def processList (history : List HistRecord)
    (titles : List (String × HistRecord)) (now : String) (st : DedupSt) :
    List Article → DedupSt × List Article
  | [] => (st, [])
  | art :: rest =>
    let r := processArticle history titles now st art
    let r2 := processList history titles now r.1 rest
    (r2.1, r.2.toList ++ r2.2)

/-- Process the categories in input order, threading the state. -/
def processCats (history : List HistRecord)
    (titles : List (String × HistRecord)) (now : String) (st : DedupSt) :
    List (String × List Article) → DedupSt × List (String × List Article)
  | [] => (st, [])
  | (c, arts) :: rest =>
    let r := processList history titles now st arts
    let r2 := processCats history titles now r.1 rest
    (r2.1, (c, r.2) :: r2.2)

/-- `deduplicate` (lines 337-410), with the loaded history and the current
ISO timestamp passed explicitly.  Returns the deduplicated mapping and the
merged history `history.extend(new_history_entries)` — the list that the
final `save_history(history)` call then prunes and persists. -/
def deduplicate (now : String) (history : List HistRecord)
    (categorised : List (String × List Article)) :
    List (String × List Article) × List HistRecord :=
  let r := processCats history (histTitles history) now ⟨[], []⟩ categorised
  (r.2, history ++ r.1.newEntries)

/-- `select_top_articles` (lines 413-424); Python's
`int(total * len(arts) / total_available)` — float division truncated —
is modelled as `Nat` floor division. -/
def select_top_articles (categorised : List (String × List Article))
    (total : Nat) : List (String × List Article) :=
  let total_available := (categorised.map (fun p => p.2.length)).sum
  if total_available = 0 then categorised
  else categorised.map
    (fun p => (p.1, p.2.take (max 3 (total * p.2.length / total_available))))

/-! ### Shared example data for the concrete witnesses -/

/-- An article for the end-to-end examples. -/
def exArt : Article := ⟨"t", "u", "d", "s", "p"⟩

/-- The example cutoff `(now - 7 days).isoformat()` for a run at
`2026-10-12T12:00:00+00:00`. -/
def pruneCutoff : String := "2026-10-05T12:00:00+00:00"

/-- A record dated 8 days before that run. -/
def recEightDays : HistRecord :=
  ⟨"older story", "http://o.com/1", "f1", "d1", "2026-10-04T12:00:00+00:00"⟩

/-- A record dated 6 days before that run. -/
def recSixDays : HistRecord :=
  ⟨"newer story", "http://n.com/2", "f2", "d2", "2026-10-06T12:00:00+00:00"⟩

/-- A history record whose title does not fuzzily match the C4 example
candidate. -/
def r41 : HistRecord :=
  ⟨"totally unrelated title", "http://u1.com/a", "f41", "ddd", "T1"⟩

/-- The first fuzzily-matching history record: same cleaned title as the
candidate, identical description. -/
def r42 : HistRecord :=
  ⟨"fed raises rates again!", "http://u2.com/b", "f42",
   "same description text", "T1"⟩

/-- A later also-matching record whose diverging description would have
made the candidate an update, had the scan not stopped at `r42`. -/
def r43 : HistRecord :=
  ⟨"fed raises rates again?", "http://u3.com/c", "f43", "zzz qqq ww", "T1"⟩

/-- The C4 example candidate: fresh URL, title fuzzily matching `r42` and
`r43`, description equal to `r42`'s. -/
def art4 : Article :=
  ⟨"Fed Raises Rates Again", "http://new.com/z", "same description text",
   "s", "p"⟩

/-! ### Run invariants for C3 -/

/-- The batch fingerprint of a candidate, as `deduplicate` computes it. -/
def fpOf (art : Article) : String := url_fingerprint (pyStripS art.url)

/-- The output item `x` is the input item `a`, possibly carrying the
`[Updated] ` title annotation the engine adds in place. -/
def annotatedFrom (a x : Article) : Prop :=
  x = a ∨ x = { a with title := "[Updated] " ++ pyStripS a.title }

/-- `out` is an in-order selection of `inp`, item by item possibly
update-annotated. -/
def AnnSub (inp out : List Article) : Prop :=
  ∃ sub, sub.Sublist inp ∧ List.Forall₂ annotatedFrom sub out

/-- The `fuel = 0` branch of `extBackF` is never taken early: with any
fuel at least `m.i` the result does not depend on the fuel. -/
lemma extBackF_fuel {a b : List Char} {alo blo : Nat} :
    ∀ (f g : Nat) (m : MatchBlock), m.i ≤ f → m.i ≤ g →
      extBackF a b alo blo f m = extBackF a b alo blo g m
  | 0, 0, _, _, _ => rfl
  | 0, g + 1, ⟨i, j, k⟩, hf, _ => by
    have hi : i = 0 := Nat.le_zero.mp hf
    subst hi
    rw [extBackF, extBackF, if_neg (fun hc => absurd hc.1 (Nat.not_lt_zero alo))]
  | f + 1, 0, ⟨i, j, k⟩, hf, hg => by
    have hi : i = 0 := Nat.le_zero.mp hg
    subst hi
    rw [extBackF, extBackF, if_neg (fun hc => absurd hc.1 (Nat.not_lt_zero alo))]
  | f + 1, g + 1, ⟨i, j, k⟩, hf, hg => by
    rw [extBackF, extBackF]
    split
    · refine extBackF_fuel f g ⟨i - 1, j - 1, k + 1⟩ ?_ ?_
      · have hf' : i ≤ f + 1 := hf
        show i - 1 ≤ f
        omega
      · have hg' : i ≤ g + 1 := hg
        show i - 1 ≤ g
        omega
    · rfl

/-- The `fuel = 0` branch of `extFwdF` is never taken early. -/
lemma extFwdF_fuel {a b : List Char} {ahi bhi : Nat} :
    ∀ (f g : Nat) (m : MatchBlock), ahi - (m.i + m.size) ≤ f →
      ahi - (m.i + m.size) ≤ g →
      extFwdF a b ahi bhi f m = extFwdF a b ahi bhi g m
  | 0, 0, _, _, _ => rfl
  | 0, g + 1, ⟨i, j, k⟩, hf, _ => by
    have hf' : ahi - (i + k) ≤ 0 := hf
    rw [extFwdF, extFwdF, if_neg (fun hc => absurd hc.1 (by omega))]
  | f + 1, 0, ⟨i, j, k⟩, hf, hg => by
    have hg' : ahi - (i + k) ≤ 0 := hg
    rw [extFwdF, extFwdF, if_neg (fun hc => absurd hc.1 (by omega))]
  | f + 1, g + 1, ⟨i, j, k⟩, hf, hg => by
    rw [extFwdF, extFwdF]
    split
    · rename_i hc
      have hf' : ahi - (i + k) ≤ f + 1 := hf
      have hg' : ahi - (i + k) ≤ g + 1 := hg
      refine extFwdF_fuel f g ⟨i, j, k + 1⟩ ?_ ?_
      · show ahi - (i + (k + 1)) ≤ f
        omega
      · show ahi - (i + (k + 1)) ≤ g
        omega
    · rfl

lemma chainLen_le {alo blo bhi i j : Nat} {fOld : Nat → Nat}
    (hf : RowInv blo bhi (i - alo) fOld)
    (hj : blo ≤ j) (hi : alo ≤ i) :
    chainLen fOld j ≤ j + 1 - blo ∧ chainLen fOld j ≤ i + 1 - alo := by
  rw [chainLen]
  split
  · omega
  · by_cases h0 : fOld (j - 1) = 0
    · rw [h0]; omega
    · have := hf (j - 1) h0
      omega

lemma rowStep_inv {alo ahi blo bhi i j : Nat} {fOld : Nat → Nat}
    {st : (Nat → Nat) × MatchBlock}
    (hf : RowInv blo bhi (i - alo) fOld)
    (hj : blo ≤ j ∧ j < bhi) (hi : alo ≤ i ∧ i < ahi)
    (hst : RowInv blo bhi (i + 1 - alo) st.1)
    (hb : GoodBlock alo ahi blo bhi st.2) :
    RowInv blo bhi (i + 1 - alo) (rowStep fOld i st j).1 ∧
      GoodBlock alo ahi blo bhi (rowStep fOld i st j).2 := by
  have hk1 := chainLen_le (i := i) hf hj.1 hi.1
  have hk0 : 0 < chainLen fOld j := Nat.succ_pos _
  constructor
  · intro x hx
    have hx1 : (rowStep fOld i st j).1 x = if x = j then chainLen fOld j else st.1 x := rfl
    rw [hx1] at hx ⊢
    by_cases hxj : x = j
    · subst hxj
      rw [if_pos rfl] at hx ⊢
      exact ⟨hj.1, hj.2, hk1.1, hk1.2⟩
    · rw [if_neg hxj] at hx ⊢
      exact hst x hx
  · have hx2 : (rowStep fOld i st j).2 =
        if st.2.size < chainLen fOld j then
          ⟨i + 1 - chainLen fOld j, j + 1 - chainLen fOld j, chainLen fOld j⟩
        else st.2 := rfl
    rw [hx2]
    split
    · right
      simp only
      omega
    · exact hb

lemma mem_rowJs {b2jf : Char → List Nat} {blo bhi : Nat} {c : Char} {j : Nat}
    (h : j ∈ rowJs b2jf blo bhi c) : blo ≤ j ∧ j < bhi := by
  simp only [rowJs, List.mem_filter, decide_eq_true_eq] at h
  exact ⟨h.2, by simpa using List.mem_takeWhile_imp h.1⟩

lemma foldRow_inv {alo ahi blo bhi i : Nat} {fOld : Nat → Nat}
    (hf : RowInv blo bhi (i - alo) fOld) (hi : alo ≤ i ∧ i < ahi) :
    ∀ (js : List Nat), (∀ j ∈ js, blo ≤ j ∧ j < bhi) →
      ∀ (st : (Nat → Nat) × MatchBlock),
        RowInv blo bhi (i + 1 - alo) st.1 → GoodBlock alo ahi blo bhi st.2 →
        RowInv blo bhi (i + 1 - alo) ((js.foldl (rowStep fOld i) st)).1 ∧
          GoodBlock alo ahi blo bhi ((js.foldl (rowStep fOld i) st)).2
  | [], _, st, h1, h2 => ⟨h1, h2⟩
  | j :: js, hjs, st, h1, h2 => by
    have step := @rowStep_inv alo ahi blo bhi i j fOld st hf (hjs j (by simp)) hi h1 h2
    simpa using foldRow_inv hf hi js (fun x hx => hjs x (by simp [hx])) _ step.1 step.2

lemma scanRow_inv {alo ahi blo bhi i : Nat} (b2jf : Char → List Nat)
    {fOld : Nat → Nat} {best : MatchBlock} (oc : Option Char)
    (hf : RowInv blo bhi (i - alo) fOld) (hi : alo ≤ i ∧ i < ahi)
    (hb : GoodBlock alo ahi blo bhi best) :
    RowInv blo bhi (i + 1 - alo) (scanRow b2jf blo bhi oc fOld i best).1 ∧
      GoodBlock alo ahi blo bhi (scanRow b2jf blo bhi oc fOld i best).2 := by
  have hzero : RowInv blo bhi (i + 1 - alo) (fun _ => 0) := fun _ hx => absurd rfl hx
  cases oc with
  | none => exact foldRow_inv hf hi [] (by simp) _ hzero hb
  | some c =>
    exact foldRow_inv hf hi (rowJs b2jf blo bhi c) (fun j hj => mem_rowJs hj) _ hzero hb

lemma scanFold_good {a b : List Char} {alo ahi blo bhi : Nat} :
    ∀ (n i₀ : Nat) (st : (Nat → Nat) × MatchBlock),
      alo ≤ i₀ → i₀ + n ≤ ahi →
      RowInv blo bhi (i₀ - alo) st.1 → GoodBlock alo ahi blo bhi st.2 →
      GoodBlock alo ahi blo bhi
        (((List.range' i₀ n).foldl
          (fun st i => scanRow (b2j b) blo bhi (a.get? i) st.1 i st.2) st)).2
  | 0, _, _, _, _, _, hb => hb
  | n + 1, i₀, st, h1, h2, hf, hb => by
    rw [List.range'_succ]
    simp only [List.foldl_cons]
    have hrow := scanRow_inv (b2j b) (a.get? i₀) hf ⟨h1, by omega⟩ hb
    exact scanFold_good n (i₀ + 1)
      (scanRow (b2j b) blo bhi (a.get? i₀) st.1 i₀ st.2)
      (by omega) (by omega) hrow.1 hrow.2

lemma scanRows_good (a b : List Char) (alo ahi blo bhi : Nat) :
    GoodBlock alo ahi blo bhi (scanRows a b alo ahi blo bhi) := by
  have hzero : RowInv blo bhi (alo - alo) (fun _ => (0 : Nat)) :=
    fun _ hx => absurd rfl hx
  have hinit : GoodBlock alo ahi blo bhi ⟨alo, blo, 0⟩ := Or.inl rfl
  by_cases h : alo ≤ ahi
  · exact scanFold_good (ahi - alo) alo _ le_rfl (by omega) hzero hinit
  · have h0 : ahi - alo = 0 := by omega
    rw [scanRows, h0]
    exact hinit

lemma extBackF_good {a b : List Char} {alo ahi blo bhi : Nat} :
    ∀ (fuel : Nat) (m : MatchBlock), GoodBlock alo ahi blo bhi m →
      GoodBlock alo ahi blo bhi (extBackF a b alo blo fuel m)
  | 0, _, hm => hm
  | fuel + 1, ⟨i, j, k⟩, hm => by
    rw [extBackF]
    split
    · rename_i h
      apply extBackF_good fuel
      rcases hm with h0 | hb
      · exfalso
        have : i = alo := congrArg MatchBlock.i h0
        omega
      · right
        simp only at hb ⊢
        omega
    · exact hm

lemma extBack_good {a b : List Char} {alo ahi blo bhi : Nat} (m : MatchBlock)
    (hm : GoodBlock alo ahi blo bhi m) :
    GoodBlock alo ahi blo bhi (extBack a b alo blo m) :=
  extBackF_good m.i m hm

lemma extFwdF_good {a b : List Char} {alo ahi blo bhi : Nat} :
    ∀ (fuel : Nat) (m : MatchBlock), GoodBlock alo ahi blo bhi m →
      GoodBlock alo ahi blo bhi (extFwdF a b ahi bhi fuel m)
  | 0, _, hm => hm
  | fuel + 1, ⟨i, j, k⟩, hm => by
    rw [extFwdF]
    split
    · rename_i h
      apply extFwdF_good fuel
      rcases hm with h0 | hb
      · have hi : i = alo := congrArg MatchBlock.i h0
        have hj : j = blo := congrArg MatchBlock.j h0
        have hk : k = 0 := congrArg MatchBlock.size h0
        right
        simp only
        omega
      · right
        simp only at hb ⊢
        omega
    · exact hm

lemma extFwd_good {a b : List Char} {alo ahi blo bhi : Nat} (m : MatchBlock)
    (hm : GoodBlock alo ahi blo bhi m) :
    GoodBlock alo ahi blo bhi (extFwd a b ahi bhi m) :=
  extFwdF_good (ahi - (m.i + m.size)) m hm

lemma flm_good (a b : List Char) (alo ahi blo bhi : Nat) :
    GoodBlock alo ahi blo bhi (findLongestMatch a b alo ahi blo bhi) :=
  extFwd_good _ (extBack_good _ (scanRows_good a b alo ahi blo bhi))

lemma flm_bounds {a b : List Char} {alo ahi blo bhi : Nat}
    (h : (findLongestMatch a b alo ahi blo bhi).size ≠ 0) :
    alo ≤ (findLongestMatch a b alo ahi blo bhi).i ∧
      (findLongestMatch a b alo ahi blo bhi).i +
        (findLongestMatch a b alo ahi blo bhi).size ≤ ahi ∧
      blo ≤ (findLongestMatch a b alo ahi blo bhi).j ∧
      (findLongestMatch a b alo ahi blo bhi).j +
        (findLongestMatch a b alo ahi blo bhi).size ≤ bhi := by
  rcases flm_good a b alo ahi blo bhi with h0 | hb
  · rw [h0] at h
    simp at h
  · exact ⟨hb.2.1, hb.2.2.1, hb.2.2.2.1, hb.2.2.2.2⟩

/-- The longest match fits in the ranges. -/
lemma flm_size_le (a b : List Char) (alo ahi blo bhi : Nat) :
    (findLongestMatch a b alo ahi blo bhi).size ≤ ahi - alo ∧
      (findLongestMatch a b alo ahi blo bhi).size ≤ bhi - blo := by
  rcases flm_good a b alo ahi blo bhi with h0 | hb
  · rw [h0]
    simp
  · omega

/-- `matchesFuel` does not depend on the fuel once the fuel covers the
range measure: the `fuel = 0` branch is dead code for the starting fuel
used by `matchesSum`. -/
lemma matchesFuel_mono {a b : List Char} :
    ∀ (f g alo ahi blo bhi : Nat), (ahi - alo) + (bhi - blo) ≤ f →
      (ahi - alo) + (bhi - blo) ≤ g →
      matchesFuel a b f alo ahi blo bhi = matchesFuel a b g alo ahi blo bhi
  | 0, 0, _, _, _, _, _, _ => rfl
  | 0, g + 1, alo, ahi, blo, bhi, hf, _ => by
    have hsz := flm_size_le a b alo ahi blo bhi
    rw [matchesFuel, matchesFuel, if_pos (by omega)]
  | f + 1, 0, alo, ahi, blo, bhi, _, hg => by
    have hsz := flm_size_le a b alo ahi blo bhi
    rw [matchesFuel, matchesFuel, if_pos (by omega)]
  | f + 1, g + 1, alo, ahi, blo, bhi, hf, hg => by
    rw [matchesFuel]
    conv_rhs => rw [matchesFuel]
    by_cases hsz : (findLongestMatch a b alo ahi blo bhi).size = 0
    · rw [if_pos hsz, if_pos hsz]
    · rw [if_neg hsz, if_neg hsz]
      have hb := flm_bounds hsz
      congr 1
      · congr 1
        split
        · rename_i hA
          exact matchesFuel_mono f g _ _ _ _ (by omega) (by omega)
        · rfl
      · split
        · rename_i hB
          exact matchesFuel_mono f g _ _ _ _ (by omega) (by omega)
        · rfl

/-- `matchesSum` satisfies the recursion of `get_matching_blocks`: take
the longest match and recurse on the left and right remainders; in
particular the fuel in `matchesFuel` is sufficient and the `fuel = 0`
branch is unreachable from `matchesSum`. -/
theorem matchesSum_rec (a b : List Char) (alo ahi blo bhi : Nat) :
    matchesSum a b alo ahi blo bhi =
      if (findLongestMatch a b alo ahi blo bhi).size = 0 then 0
      else
        (if alo < (findLongestMatch a b alo ahi blo bhi).i ∧
            blo < (findLongestMatch a b alo ahi blo bhi).j then
          matchesSum a b alo (findLongestMatch a b alo ahi blo bhi).i
            blo (findLongestMatch a b alo ahi blo bhi).j
        else 0)
        + (findLongestMatch a b alo ahi blo bhi).size
        + (if (findLongestMatch a b alo ahi blo bhi).i +
              (findLongestMatch a b alo ahi blo bhi).size < ahi ∧
            (findLongestMatch a b alo ahi blo bhi).j +
              (findLongestMatch a b alo ahi blo bhi).size < bhi then
          matchesSum a b
            ((findLongestMatch a b alo ahi blo bhi).i +
              (findLongestMatch a b alo ahi blo bhi).size) ahi
            ((findLongestMatch a b alo ahi blo bhi).j +
              (findLongestMatch a b alo ahi blo bhi).size) bhi
        else 0) := by
  rw [matchesSum]
  rcases hmeas : (ahi - alo) + (bhi - blo) with _ | n
  · have hsz := flm_size_le a b alo ahi blo bhi
    rw [matchesFuel, if_pos (by omega)]
  · rw [matchesFuel]
    by_cases hsz : (findLongestMatch a b alo ahi blo bhi).size = 0
    · rw [if_pos hsz, if_pos hsz]
    · rw [if_neg hsz, if_neg hsz]
      have hb := flm_bounds hsz
      congr 1
      · congr 1
        split
        · rename_i hA
          exact matchesFuel_mono n _ _ _ _ _ (by omega) (by omega)
        · rfl
      · split
        · rename_i hB
          exact matchesFuel_mono n _ _ _ _ _ (by omega) (by omega)
        · rfl

/-- The matching total is bounded by each range length. -/
lemma matchesFuel_le {a b : List Char} :
    ∀ (f alo ahi blo bhi : Nat),
      matchesFuel a b f alo ahi blo bhi ≤ ahi - alo ∧
        matchesFuel a b f alo ahi blo bhi ≤ bhi - blo
  | 0, alo, ahi, blo, bhi => by
    rw [matchesFuel]
    omega
  | f + 1, alo, ahi, blo, bhi => by
    rw [matchesFuel]
    by_cases hsz : (findLongestMatch a b alo ahi blo bhi).size = 0
    · rw [if_pos hsz]
      omega
    · rw [if_neg hsz]
      have hb := flm_bounds hsz
      have h1 := matchesFuel_le (a := a) (b := b) f alo
        (findLongestMatch a b alo ahi blo bhi).i
        blo (findLongestMatch a b alo ahi blo bhi).j
      have h2 := matchesFuel_le (a := a) (b := b) f
        ((findLongestMatch a b alo ahi blo bhi).i +
          (findLongestMatch a b alo ahi blo bhi).size) ahi
        ((findLongestMatch a b alo ahi blo bhi).j +
          (findLongestMatch a b alo ahi blo bhi).size) bhi
      constructor <;> (split <;> split <;> omega)

/-- The matching total is bounded by each sequence length. -/
lemma matchesSum_le (a b : List Char) :
    matchesSum a b 0 a.length 0 b.length ≤ a.length ∧
      matchesSum a b 0 a.length 0 b.length ≤ b.length := by
  rw [matchesSum]
  have h := matchesFuel_le (a := a) (b := b)
    ((a.length - 0) + (b.length - 0)) 0 a.length 0 b.length
  omega

lemma ratioLtB_iff (a b : List Char) (c d : Nat) (hd : 0 < d) :
    ratioLtB a b c d = true ↔ ratioOf a b < (c : ℚ) / d := by
  rw [ratioLtB, ratioOf]
  by_cases h0 : a.length + b.length = 0
  · rw [if_pos h0, if_pos h0]
    rw [show ((1 : ℚ) < c / d ↔ (d : ℚ) < c) from
      one_lt_div (by exact_mod_cast hd)]
    simp only [decide_eq_true_eq]
    exact_mod_cast Iff.rfl
  · rw [if_neg h0, if_neg h0]
    have hL : (0 : ℚ) < (a.length : ℚ) + (b.length : ℚ) := by
      have : 0 < a.length + b.length := Nat.pos_of_ne_zero h0
      exact_mod_cast this
    rw [div_lt_div_iff₀ hL (by exact_mod_cast hd)]
    simp only [decide_eq_true_eq]
    constructor
    · intro h
      exact_mod_cast h
    · intro h
      exact_mod_cast h

lemma ratioGtB_iff (a b : List Char) (c d : Nat) (hd : 0 < d) :
    ratioGtB a b c d = true ↔ (c : ℚ) / d < ratioOf a b := by
  rw [ratioGtB, ratioOf]
  by_cases h0 : a.length + b.length = 0
  · rw [if_pos h0, if_pos h0]
    rw [show ((c : ℚ) / d < 1 ↔ (c : ℚ) < d) from
      div_lt_one (by exact_mod_cast hd)]
    simp only [decide_eq_true_eq]
    exact_mod_cast Iff.rfl
  · rw [if_neg h0, if_neg h0]
    have hL : (0 : ℚ) < (a.length : ℚ) + (b.length : ℚ) := by
      have : 0 < a.length + b.length := Nat.pos_of_ne_zero h0
      exact_mod_cast this
    rw [div_lt_div_iff₀ (by exact_mod_cast hd) hL]
    simp only [decide_eq_true_eq]
    constructor
    · intro h
      exact_mod_cast h
    · intro h
      exact_mod_cast h

lemma titleSimLt_iff (x y : String) (c d : Nat) (hd : 0 < d) :
    titleSimLt x y c d = true ↔ title_similarity x y < (c : ℚ) / d :=
  ratioLtB_iff (cleanTitle x) (cleanTitle y) c d hd

lemma titleSimGt_iff (x y : String) (c d : Nat) (hd : 0 < d) :
    titleSimGt x y c d = true ↔ (c : ℚ) / d < title_similarity x y :=
  ratioGtB_iff (cleanTitle x) (cleanTitle y) c d hd

/-- `updateCheck` is the spec-level condition on `title_similarity`. -/
lemma updateCheck_iff (oldDesc newDesc : String) :
    updateCheck oldDesc newDesc = true ↔
      oldDesc ≠ "" ∧ newDesc ≠ "" ∧
        title_similarity oldDesc newDesc < (7 : ℚ) / 10 := by
  rw [updateCheck]
  simp only [Bool.and_eq_true, bne_iff_ne, ne_eq,
    titleSimLt_iff oldDesc newDesc 7 10 (by omega), and_assoc]
  norm_num

/-! ### Claim theorems -/

/-- C2: the spec's idempotent-fingerprinting property fails on the code.
`normalize_url` leaves the upper-case scheme of `"HTTP://X.com/a/"` in
place — `re.sub(r"https?://", ...)` is case-sensitive and runs *before*
`.lower()` — so it normalises to `"http://x.com/a"`, while
`"http://x.com/a"` normalises to `"x.com/a"`; the two MD5 fingerprints
therefore differ, contradicting
`fingerprint("HTTP://X.com/a/") == fingerprint("http://x.com/a")`. -/
theorem C2_uppercase_scheme_breaks_fingerprint :
    normalize_url "HTTP://X.com/a/" = "http://x.com/a" ∧
    normalize_url "http://x.com/a" = "x.com/a" ∧
    url_fingerprint "HTTP://X.com/a/" ≠ url_fingerprint "http://x.com/a" :=
  ⟨by decide, by decide, by decide⟩

/-- C5: `save_history` keeps exactly the input records whose `date` is at
or after the `now - 7 days` cutoff (ISO-8601 strings compared in Python
string order, which on the engine's fixed-format UTC timestamps is
chronological order), and it keeps them unmodified and in order (the
output is a sublist of the input). -/
theorem C5_save_history_prunes_exactly (cutoff : String)
    (history : List HistRecord) :
    (save_history cutoff history).Sublist history ∧
    ∀ r, r ∈ save_history cutoff history ↔
      r ∈ history ∧ lexLe cutoff r.date = true := by
  constructor
  · exact List.filter_sublist history
  · intro r
    simp [save_history, List.mem_filter]

/-- C5 witness: a record dated 8 days ago is pruned, one dated 6 days ago
is retained unchanged. -/
theorem C5_witness :
    recSixDays ∈ save_history pruneCutoff [recEightDays, recSixDays] ∧
    save_history pruneCutoff [recEightDays, recSixDays] = [recSixDays] :=
  ⟨((C5_save_history_prunes_exactly pruneCutoff
      [recEightDays, recSixDays]).2 recSixDays).mpr ⟨by simp, by decide⟩,
   by decide⟩

/-- The empty string sorts strictly before any non-empty string. -/
lemma lexLe_empty_right {s : String} (h : s ≠ "") : lexLe s "" = false := by
  rw [lexLe]
  cases s with
  | mk data =>
    cases data with
    | nil => exact absurd rfl h
    | cons c cs => rfl

/-- C10: for any non-empty cutoff (the ISO cutoff string is never empty),
every record surviving `save_history` has a non-empty `date` at or after
the cutoff; the `h.get("date", "")` default `""` always compares strictly
below the cutoff, so records with a missing or empty `date` are dropped. -/
theorem C10_empty_dates_dropped (cutoff : String) (history : List HistRecord)
    (hc : cutoff ≠ "") :
    lexLe cutoff "" = false ∧
    ∀ r ∈ save_history cutoff history,
      r.date ≠ "" ∧ lexLe cutoff r.date = true := by
  refine ⟨lexLe_empty_right hc, fun r hr => ?_⟩
  rw [save_history, List.mem_filter] at hr
  refine ⟨fun hdate => ?_, hr.2⟩
  have h2 := hr.2
  rw [hdate] at h2
  rw [lexLe_empty_right hc] at h2
  exact Bool.false_ne_true h2

/-- C10 witness: a record with the empty-string date is dropped by the
save. -/
theorem C10_witness :
    lexLe pruneCutoff "" = false ∧
    save_history pruneCutoff [⟨"x", "u", "f", "d", ""⟩] = [] :=
  ⟨(C10_empty_dates_dropped pruneCutoff [⟨"x", "u", "f", "d", ""⟩]
      (by decide)).1,
   by decide⟩

/-- C7: with a non-zero candidate pool, `select_top_articles` truncates
each category to the prefix of length `max 3 (total * count / totalCount)`
in input order; a zero pool returns the input unchanged; and any category
offering at least 3 items keeps at least 3. -/
theorem C7_select_top_articles (cats : List (String × List Article))
    (total : Nat) :
    ((cats.map fun p => p.2.length).sum = 0 →
      select_top_articles cats total = cats) ∧
    ((cats.map fun p => p.2.length).sum ≠ 0 →
      select_top_articles cats total = cats.map fun p =>
        (p.1, p.2.take
          (max 3 (total * p.2.length / (cats.map fun p => p.2.length).sum)))) ∧
    (∀ p ∈ cats, 3 ≤ p.2.length → ∃ q ∈ select_top_articles cats total,
      q.1 = p.1 ∧ 3 ≤ q.2.length) := by
  refine ⟨fun h => ?_, fun h => ?_, fun p hp h3 => ?_⟩
  · rw [select_top_articles, if_pos h]
  · rw [select_top_articles, if_neg h]
  · by_cases h : (cats.map fun p => p.2.length).sum = 0
    · refine ⟨p, ?_, rfl, h3⟩
      rw [select_top_articles, if_pos h]
      exact hp
    · refine ⟨(p.1, p.2.take
        (max 3 (total * p.2.length / (cats.map fun p => p.2.length).sum))),
        ?_, rfl, ?_⟩
      · rw [select_top_articles, if_neg h]
        exact List.mem_map_of_mem _ hp
      · rw [List.length_take]
        omega

/-- C7 witness: with `total = 25` and a pool of 100 candidates, a category
contributing 97 is capped at 24, while a category contributing only 3
keeps all 3 (the floor of 3). -/
theorem C7_witness :
    select_top_articles
      [("big", List.replicate 97 exArt), ("small", [exArt, exArt, exArt])] 25 =
    [("big", (List.replicate 97 exArt).take 24),
     ("small", [exArt, exArt, exArt])] := by
  rw [(C7_select_top_articles
    [("big", List.replicate 97 exArt), ("small", [exArt, exArt, exArt])] 25).2.1
    (by decide)]
  decide

/-- C8: `load_history` returns the empty history on a missing file, on
unparseable content, and on parsed non-array content; and `deduplicate`
silently skips a candidate whose stripped title or URL is empty — the
state is unchanged (nothing is marked seen, no history entry is added) and
nothing is emitted, so the candidate is not counted as a duplicate. -/
theorem C8_cold_start_and_silent_drop :
    load_history .missing = [] ∧
    load_history .unparseable = [] ∧
    load_history (.parsed .nonArr) = [] ∧
    ∀ (history : List HistRecord) (titles : List (String × HistRecord))
      (now : String) (st : DedupSt) (art : Article),
      pyStripS art.title = "" ∨ pyStripS art.url = "" →
      processArticle history titles now st art = (st, none) := by
  refine ⟨rfl, rfl, rfl, fun history titles now st art h => ?_⟩
  simp only [processArticle]
  rw [if_pos h]

/-- C8 witness: a candidate whose title is only whitespace is dropped with
the state untouched. -/
theorem C8_witness :
    processArticle [] [] "T" ⟨[], []⟩ ⟨" ", "http://a.com", "d", "s", "p"⟩ =
      (⟨[], []⟩, none) :=
  C8_cold_start_and_silent_drop.2.2.2 [] [] "T" ⟨[], []⟩
    ⟨" ", "http://a.com", "d", "s", "p"⟩ (Or.inl (by decide))

/-- C1: inside a run, for a valid candidate (non-empty stripped title and
URL, fingerprint not yet seen in the batch) whose fingerprint matches a
History record — `h` being the *first* such record, as the code's scan
takes it — the candidate is accepted with the `[Updated] ` title marker
exactly when both descriptions are non-empty and their similarity is below
`0.7`; otherwise it is dropped as a plain duplicate. -/
theorem C1_exact_fingerprint_path (history : List HistRecord)
    (titles : List (String × HistRecord)) (now : String) (st : DedupSt)
    (art : Article) (h : HistRecord)
    (ht : pyStripS art.title ≠ "") (hu : pyStripS art.url ≠ "")
    (hseen : url_fingerprint (pyStripS art.url) ∉ st.seen)
    (hfind : history.find?
      (fun r => r.url_fp == url_fingerprint (pyStripS art.url)) = some h) :
    (processArticle history titles now st art).2 =
      if h.description ≠ "" ∧ art.description ≠ "" ∧
          title_similarity h.description art.description < (7 : ℚ) / 10 then
        some { art with title := "[Updated] " ++ pyStripS art.title }
      else none := by
  simp only [processArticle]
  rw [if_neg (by simp [ht, hu]), if_neg hseen, hfind]
  by_cases hup : updateCheck h.description art.description = true
  · rw [if_neg (by simp [hup]),
      if_pos ((updateCheck_iff h.description art.description).mp hup)]
    simp [hup]
  · rw [if_pos (by simp [Bool.not_eq_true] at hup ⊢; simp [hup]),
      if_neg (fun hc => hup ((updateCheck_iff h.description art.description).mpr hc))]

/-- C1 witness: a candidate matching a history fingerprint with a
materially different description is re-surfaced with the `[Updated] `
marker. -/
theorem C1_witness :
    (processArticle
      [⟨"AI Boom", "http://a.com/x", url_fingerprint "http://a.com/x",
        "desc1", "T1"⟩]
      [] "T3" ⟨[], []⟩
      ⟨"AI Boom", "http://a.com/x", "completely different text here",
        "s", "p"⟩).2 =
      some ⟨"[Updated] AI Boom", "http://a.com/x",
        "completely different text here", "s", "p"⟩ := by
  rw [C1_exact_fingerprint_path
    [⟨"AI Boom", "http://a.com/x", url_fingerprint "http://a.com/x",
      "desc1", "T1"⟩]
    [] "T3" ⟨[], []⟩
    ⟨"AI Boom", "http://a.com/x", "completely different text here", "s", "p"⟩
    ⟨"AI Boom", "http://a.com/x", url_fingerprint "http://a.com/x",
      "desc1", "T1"⟩
    (by decide) (by decide) (by decide) (by decide)]
  rw [if_pos ⟨by decide, by decide,
    (titleSimLt_iff "desc1" "completely different text here" 7 10
      (by omega)).mp (by decide)⟩]
  decide

/-- C4: inside a run, for a valid candidate whose fingerprint matches no
History record, the code scans the `hist_titles` keys in order; given a
decomposition of that key list into a first fuzzily-matching title `p`
(similarity above `0.85`) after a block `t₁` of non-matching titles, that
entry alone decides: accepted as an update exactly when both descriptions
are non-empty with similarity below `0.7`, dropped otherwise — the scan
short-circuits at `p` regardless of any later or better match in `t₂`. -/
theorem C4_fuzzy_title_path (history : List HistRecord) (now : String)
    (st : DedupSt) (art : Article) (t₁ t₂ : List (String × HistRecord))
    (p : String × HistRecord)
    (ht : pyStripS art.title ≠ "") (hu : pyStripS art.url ≠ "")
    (hseen : url_fingerprint (pyStripS art.url) ∉ st.seen)
    (hnofp : history.find?
      (fun r => r.url_fp == url_fingerprint (pyStripS art.url)) = none)
    (hsplit : histTitles history = t₁ ++ p :: t₂)
    (hbefore : ∀ q ∈ t₁,
      ¬((17 : ℚ) / 20 < title_similarity (pyStripS art.title) q.1))
    (hhit : (17 : ℚ) / 20 < title_similarity (pyStripS art.title) p.1) :
    (processArticle history (histTitles history) now st art).2 =
      if p.2.description ≠ "" ∧ art.description ≠ "" ∧
          title_similarity p.2.description art.description < (7 : ℚ) / 10 then
        some { art with title := "[Updated] " ++ pyStripS art.title }
      else none := by
  have hfindt : (histTitles history).find?
      (fun q => titleSimGt (pyStripS art.title) q.1 17 20) = some p := by
    rw [hsplit, List.find?_append]
    have h1 : t₁.find? (fun q => titleSimGt (pyStripS art.title) q.1 17 20) =
        none := by
      rw [List.find?_eq_none]
      intro q hq
      have hb := hbefore q hq
      intro hc
      exact hb ((titleSimGt_iff (pyStripS art.title) q.1 17 20 (by omega)).mp hc)
    have hp2 : (fun q : String × HistRecord =>
        titleSimGt (pyStripS art.title) q.1 17 20) p = true :=
      (titleSimGt_iff (pyStripS art.title) p.1 17 20 (by omega)).mpr hhit
    rw [h1, List.find?_cons_of_pos
      (p := fun q => titleSimGt (pyStripS art.title) q.1 17 20) (a := p) t₂ hp2]
    rfl
  simp only [processArticle]
  rw [if_neg (by simp [ht, hu]), if_neg hseen, hnofp, hfindt]
  by_cases hup : updateCheck p.2.description art.description = true
  · rw [if_neg (by simp [hup]),
      if_pos ((updateCheck_iff p.2.description art.description).mp hup)]
    simp [hup]
  · rw [if_pos (by simp [Bool.not_eq_true] at hup ⊢; simp [hup]),
      if_neg (fun hc => hup ((updateCheck_iff p.2.description art.description).mpr hc))]

/-- C4 witness: the candidate is dropped as a duplicate because the
*first* fuzzily-matching history title (`r42`, identical description)
decides, even though the later matching record `r43` has a diverging
description that would have made it an update. -/
theorem C4_witness :
    (processArticle [r41, r42, r43] (histTitles [r41, r42, r43]) "T9"
      ⟨[], []⟩ art4).2 = none := by
  have hb : ∀ q ∈ [("totally unrelated title", r41)],
      ¬((17 : ℚ) / 20 < title_similarity (pyStripS art4.title) q.1) := by
    intro q hq
    have hq' : q = ("totally unrelated title", r41) := by simpa using hq
    subst hq'
    intro hc
    exact absurd ((titleSimGt_iff (pyStripS art4.title)
      "totally unrelated title" 17 20 (by omega)).mpr hc) (by decide)
  rw [C4_fuzzy_title_path [r41, r42, r43] "T9" ⟨[], []⟩ art4
    [("totally unrelated title", r41)] [("fed raises rates again?", r43)]
    ("fed raises rates again!", r42)
    (by decide) (by decide) (by decide) (by decide) (by decide) hb
    ((titleSimGt_iff (pyStripS art4.title) "fed raises rates again!" 17 20
      (by omega)).mp (by decide))]
  rw [if_neg (fun hc => absurd ((titleSimLt_iff r42.description
    art4.description 7 10 (by omega)).mpr hc.2.2) (by decide))]

/-- C6: every accepted candidate appends exactly one new history entry
carrying the stripped, un-prefixed title, the stripped URL, its
fingerprint, the candidate's description, and the current timestamp
(state `seen` also gains the fingerprint); every rejected candidate
appends none; and the history that `deduplicate` hands to `save_history`
is the loaded history with the run's new entries appended — pre-existing
records are never removed or replaced, so an updated story leaves two
records with one fingerprint. -/
theorem C6_accepted_items_append_history (history : List HistRecord)
    (titles : List (String × HistRecord)) (now : String) (st : DedupSt)
    (art : Article) :
    (∀ st' out, processArticle history titles now st art = (st', some out) →
      st'.newEntries = st.newEntries ++
        [⟨pyStripS art.title, pyStripS art.url,
          url_fingerprint (pyStripS art.url), art.description, now⟩] ∧
      st'.seen = st.seen ++ [url_fingerprint (pyStripS art.url)] ∧
      out.url = art.url ∧ out.description = art.description ∧
      (out.title = art.title ∨
        out.title = "[Updated] " ++ pyStripS art.title)) ∧
    (∀ st', processArticle history titles now st art = (st', none) →
      st'.newEntries = st.newEntries) ∧
    (∀ cats, ∃ newE, (deduplicate now history cats).2 = history ++ newE) := by
  refine ⟨fun st' out hstep => ?_, fun st' hstep => ?_, fun cats => ⟨_, rfl⟩⟩
  · simp only [processArticle] at hstep
    split at hstep
    · exact absurd (congrArg Prod.snd hstep) (by simp)
    · split at hstep
      · exact absurd (congrArg Prod.snd hstep) (by simp)
      · split at hstep
        · exact absurd (congrArg Prod.snd hstep) (by simp)
        · have h1 := congrArg Prod.fst hstep
          have h2 := congrArg Prod.snd hstep
          simp only at h1 h2
          rw [← h1]
          refine ⟨rfl, rfl, ?_⟩
          rw [Option.some.injEq] at h2
          split at h2
          · rw [← h2]
            exact ⟨rfl, rfl, Or.inr rfl⟩
          · rw [← h2]
            exact ⟨rfl, rfl, Or.inl rfl⟩
  · simp only [processArticle] at hstep
    split at hstep
    · have h1 := congrArg Prod.fst hstep
      simp only at h1
      rw [← h1]
    · split at hstep
      · have h1 := congrArg Prod.fst hstep
        simp only at h1
        rw [← h1]
      · split at hstep
        · have h1 := congrArg Prod.fst hstep
          simp only at h1
          rw [← h1]
        · exact absurd (congrArg Prod.snd hstep) (by simp)

/-- C6 witness: the C1 update scenario appends exactly one new entry with
the un-prefixed title, and the merged history keeps the old record, giving
two records with the same fingerprint. -/
theorem C6_witness :
    (processArticle
      [⟨"AI Boom", "http://a.com/x", url_fingerprint "http://a.com/x",
        "desc1", "T1"⟩]
      [] "T3" ⟨[], []⟩
      ⟨"AI Boom", "http://a.com/x", "completely different text here",
        "s", "p"⟩).1.newEntries =
      [⟨"AI Boom", "http://a.com/x", url_fingerprint "http://a.com/x",
        "completely different text here", "T3"⟩] ∧
    (deduplicate "T3"
      [⟨"AI Boom", "http://a.com/x", url_fingerprint "http://a.com/x",
        "desc1", "T1"⟩]
      [("AI & Tech",
        [⟨"AI Boom", "http://a.com/x", "completely different text here",
          "s", "p"⟩])]).2 =
      [⟨"AI Boom", "http://a.com/x", url_fingerprint "http://a.com/x",
        "desc1", "T1"⟩,
       ⟨"AI Boom", "http://a.com/x", url_fingerprint "http://a.com/x",
        "completely different text here", "T3"⟩] := by
  constructor
  · have hstep : processArticle
        [⟨"AI Boom", "http://a.com/x", url_fingerprint "http://a.com/x",
          "desc1", "T1"⟩]
        [] "T3" ⟨[], []⟩
        ⟨"AI Boom", "http://a.com/x", "completely different text here",
          "s", "p"⟩ =
        (⟨[url_fingerprint "http://a.com/x"],
          [⟨"AI Boom", "http://a.com/x", url_fingerprint "http://a.com/x",
            "completely different text here", "T3"⟩]⟩,
         some ⟨"[Updated] AI Boom", "http://a.com/x",
           "completely different text here", "s", "p"⟩) := by decide
    have h := (C6_accepted_items_append_history
      [⟨"AI Boom", "http://a.com/x", url_fingerprint "http://a.com/x",
        "desc1", "T1"⟩]
      [] "T3" ⟨[], []⟩
      ⟨"AI Boom", "http://a.com/x", "completely different text here",
        "s", "p"⟩).1 _ _ hstep
    calc (processArticle
        [⟨"AI Boom", "http://a.com/x", url_fingerprint "http://a.com/x",
          "desc1", "T1"⟩]
        [] "T3" ⟨[], []⟩
        ⟨"AI Boom", "http://a.com/x", "completely different text here",
          "s", "p"⟩).1.newEntries
        = ((⟨[], []⟩ : DedupSt)).newEntries ++
          [⟨pyStripS (Article.title ⟨"AI Boom", "http://a.com/x",
              "completely different text here", "s", "p"⟩),
            pyStripS (Article.url ⟨"AI Boom", "http://a.com/x",
              "completely different text here", "s", "p"⟩),
            url_fingerprint (pyStripS (Article.url ⟨"AI Boom",
              "http://a.com/x", "completely different text here", "s", "p"⟩)),
            "completely different text here", "T3"⟩] := by
          rw [hstep]
          exact h.1
      _ = [⟨"AI Boom", "http://a.com/x", url_fingerprint "http://a.com/x",
          "completely different text here", "T3"⟩] := by decide
  · decide

/-- Evaluate `ratioOf` from the computed match total and lengths. -/
lemma ratioOf_eval (a b : List Char) (M L : Nat)
    (hM : matchesSum a b 0 a.length 0 b.length = M)
    (hL : a.length + b.length = L) (h0 : L ≠ 0) :
    ratioOf a b = (2 * M : ℚ) / L := by
  rw [ratioOf, if_neg (by omega), hM]
  have hc : ((a.length : ℚ) + (b.length : ℚ)) = (L : ℚ) := by
    exact_mod_cast hL
  rw [hc]

lemma ratioOf_nonneg (a b : List Char) : 0 ≤ ratioOf a b := by
  rw [ratioOf]
  split
  · norm_num
  · positivity

lemma ratioOf_le_one (a b : List Char) : ratioOf a b ≤ 1 := by
  rw [ratioOf]
  split
  · exact le_refl 1
  · rename_i h0
    have hM := matchesSum_le a b
    have hpos : (0 : ℚ) < (a.length : ℚ) + (b.length : ℚ) := by
      have : 0 < a.length + b.length := Nat.pos_of_ne_zero h0
      exact_mod_cast this
    rw [div_le_one hpos]
    have h2 : 2 * matchesSum a b 0 a.length 0 b.length ≤
        a.length + b.length := by omega
    exact_mod_cast h2

/-- C9: counterexample.  `title_similarity` is not symmetric —
`sim("ab", "bacb") = 2/3` but `sim("bacb", "ab") = 1/3` (the gestalt
longest-match tie-breaking depends on the argument order) — and a
punctuation character that shields outer whitespace from the strip changes
the score: `sim("! a", "a") = 2/3` while `sim(" a", "a") = 1`, though the
two left titles differ only by the `!`. -/
theorem C9_counterexample :
    title_similarity "ab" "bacb" = 2 / 3 ∧
    title_similarity "bacb" "ab" = 1 / 3 ∧
    title_similarity "ab" "bacb" ≠ title_similarity "bacb" "ab" ∧
    title_similarity "! a" "a" = 2 / 3 ∧
    title_similarity " a" "a" = 1 ∧
    title_similarity "! a" "a" ≠ title_similarity " a" "a" := by
  have h1 : title_similarity "ab" "bacb" = 2 / 3 := by
    rw [title_similarity, show cleanTitle "ab" = "ab".data from by decide,
      show cleanTitle "bacb" = "bacb".data from by decide,
      ratioOf_eval "ab".data "bacb".data 2 6 (by decide) (by decide)
        (by omega)]
    norm_num
  have h2 : title_similarity "bacb" "ab" = 1 / 3 := by
    rw [title_similarity, show cleanTitle "bacb" = "bacb".data from by decide,
      show cleanTitle "ab" = "ab".data from by decide,
      ratioOf_eval "bacb".data "ab".data 1 6 (by decide) (by decide)
        (by omega)]
    norm_num
  have h4 : title_similarity "! a" "a" = 2 / 3 := by
    rw [title_similarity, show cleanTitle "! a" = " a".data from by decide,
      show cleanTitle "a" = "a".data from by decide,
      ratioOf_eval " a".data "a".data 1 3 (by decide) (by decide) (by omega)]
    norm_num
  have h5 : title_similarity " a" "a" = 1 := by
    rw [title_similarity, show cleanTitle " a" = "a".data from by decide,
      show cleanTitle "a" = "a".data from by decide,
      ratioOf_eval "a".data "a".data 1 2 (by decide) (by decide) (by omega)]
    norm_num
  refine ⟨h1, h2, ?_, h4, h5, ?_⟩
  · rw [h1, h2]
    norm_num
  · rw [h4, h5]
    norm_num

/-- C9 (amended): `title_similarity` always lies in `[0, 1]`, and the
score depends only on the cleaned titles (lower-cased, outer whitespace
stripped, then characters other than `[a-z0-9 ]` removed) — hence
letter-case differences never change it; symmetry and insensitivity to
arbitrary punctuation do not hold (see the counterexample). -/
theorem C9_similarity_amended (a b a' b' : String) :
    0 ≤ title_similarity a b ∧ title_similarity a b ≤ 1 ∧
    (a.data.map Char.toLower = a'.data.map Char.toLower →
      b.data.map Char.toLower = b'.data.map Char.toLower →
      title_similarity a b = title_similarity a' b') ∧
    (cleanTitle a = cleanTitle a' → cleanTitle b = cleanTitle b' →
      title_similarity a b = title_similarity a' b') := by
  have hclean : ∀ (x x' : String),
      x.data.map Char.toLower = x'.data.map Char.toLower →
      cleanTitle x = cleanTitle x' := by
    intro x x' hx
    rw [cleanTitle, cleanTitle, pyLower, pyLower, hx]
  refine ⟨ratioOf_nonneg _ _, ratioOf_le_one _ _,
    fun ha hb => ?_, fun ha hb => ?_⟩
  · rw [title_similarity, title_similarity, hclean a a' ha, hclean b b' hb]
  · rw [title_similarity, title_similarity, ha, hb]

/-- C9 witness: the score is nonnegative and unchanged under a pure
letter-case change of the first title. -/
theorem C9_witness :
    0 ≤ title_similarity "AB c" "x1" ∧
    title_similarity "AB c" "x1" = title_similarity "ab C" "x1" :=
  ⟨(C9_similarity_amended "AB c" "x1" "ab C" "x1").1,
   (C9_similarity_amended "AB c" "x1" "ab C" "x1").2.2.1
     (by decide) (by decide)⟩

lemma processList_cons (history : List HistRecord)
    (titles : List (String × HistRecord)) (now : String) (st : DedupSt)
    (art : Article) (rest : List Article) :
    processList history titles now st (art :: rest) =
      ((processList history titles now
          (processArticle history titles now st art).1 rest).1,
        (processArticle history titles now st art).2.toList ++
        (processList history titles now
          (processArticle history titles now st art).1 rest).2) := rfl

lemma processCats_cons (history : List HistRecord)
    (titles : List (String × HistRecord)) (now : String) (st : DedupSt)
    (c : String) (arts : List Article)
    (rest : List (String × List Article)) :
    processCats history titles now st ((c, arts) :: rest) =
      ((processCats history titles now
          (processList history titles now st arts).1 rest).1,
        (c, (processList history titles now st arts).2) ::
        (processCats history titles now
          (processList history titles now st arts).1 rest).2) := rfl

/-- Each step only appends to the batch `seen` set. -/
lemma processArticle_seen_ext (history : List HistRecord)
    (titles : List (String × HistRecord)) (now : String) (st : DedupSt)
    (art : Article) :
    ∃ l, (processArticle history titles now st art).1.seen =
      st.seen ++ l := by
  simp only [processArticle]
  split
  · exact ⟨[], by simp⟩
  · split
    · exact ⟨[], by simp⟩
    · split
      · exact ⟨[url_fingerprint (pyStripS art.url)], rfl⟩
      · exact ⟨[url_fingerprint (pyStripS art.url)], rfl⟩

/-- What acceptance guarantees: the output item is the candidate up to the
update marker, its fingerprint was unseen, and it is now recorded. -/
lemma processArticle_some_spec (history : List HistRecord)
    (titles : List (String × HistRecord)) (now : String) (st : DedupSt)
    (art : Article) (st' : DedupSt) (x : Article)
    (hstep : processArticle history titles now st art = (st', some x)) :
    annotatedFrom art x ∧ fpOf x = fpOf art ∧ fpOf art ∉ st.seen ∧
      st'.seen = st.seen ++ [fpOf art] := by
  simp only [processArticle] at hstep
  split at hstep
  · exact absurd (congrArg Prod.snd hstep) (by simp)
  · split at hstep
    · exact absurd (congrArg Prod.snd hstep) (by simp)
    · rename_i hmem
      split at hstep
      · exact absurd (congrArg Prod.snd hstep) (by simp)
      · have h1 := congrArg Prod.fst hstep
        have h2 := congrArg Prod.snd hstep
        simp only at h1 h2
        rw [Option.some.injEq] at h2
        refine ⟨?_, ?_, hmem, ?_⟩
        · simp only [annotatedFrom]
          rw [← h2]
          split
          · exact Or.inr rfl
          · exact Or.inl rfl
        · rw [← h2]
          split <;> rfl
        · rw [← h1]
          rfl

/-- A candidate whose fingerprint is already in the batch `seen` set is
dropped with the state unchanged (first occurrence wins). -/
lemma processArticle_seen_drop (history : List HistRecord)
    (titles : List (String × HistRecord)) (now : String) (st : DedupSt)
    (art : Article) (h : fpOf art ∈ st.seen) :
    processArticle history titles now st art = (st, none) := by
  have h' : url_fingerprint (pyStripS art.url) ∈ st.seen := h
  simp only [processArticle]
  by_cases hv : pyStripS art.title = "" ∨ pyStripS art.url = ""
  · rw [if_pos hv]
  · rw [if_neg hv, if_pos h']

/-- A valid candidate's fingerprint is in `seen` after its step, whether
it was accepted or dropped. -/
lemma processArticle_marks_seen (history : List HistRecord)
    (titles : List (String × HistRecord)) (now : String) (st : DedupSt)
    (art : Article) (ht : pyStripS art.title ≠ "")
    (hu : pyStripS art.url ≠ "") :
    fpOf art ∈ (processArticle history titles now st art).1.seen := by
  simp only [processArticle]
  rw [if_neg (by simp [ht, hu])]
  by_cases hmem : url_fingerprint (pyStripS art.url) ∈ st.seen
  · rw [if_pos hmem]
    exact hmem
  · rw [if_neg hmem]
    split
    · simp [fpOf]
    · simp [fpOf]

lemma processList_inv (history : List HistRecord)
    (titles : List (String × HistRecord)) (now : String) :
    ∀ (arts : List Article) (st : DedupSt),
      (∃ l, (processList history titles now st arts).1.seen =
        st.seen ++ l) ∧
      (∀ x ∈ (processList history titles now st arts).2,
        fpOf x ∈ (processList history titles now st arts).1.seen ∧
        fpOf x ∉ st.seen) ∧
      List.Pairwise (fun x y => fpOf x ≠ fpOf y)
        (processList history titles now st arts).2 ∧
      AnnSub arts (processList history titles now st arts).2
  | [], st => by
    refine ⟨⟨[], by simp [processList]⟩, by simp [processList],
      by simp [processList], ?_⟩
    exact ⟨[], List.nil_sublist _, List.Forall₂.nil⟩
  | art :: rest, st => by
    rcases hstep : processArticle history titles now st art with ⟨st1, o⟩
    obtain ⟨⟨l2, hl2⟩, hmem2, hpw2, hann2⟩ :=
      processList_inv history titles now rest st1
    have hcons : processList history titles now st (art :: rest) =
        ((processList history titles now st1 rest).1,
          o.toList ++ (processList history titles now st1 rest).2) := by
      rw [processList_cons, hstep]
    rw [hcons]
    obtain ⟨l1, hl1⟩ : ∃ l, st1.seen = st.seen ++ l := by
      have hext := processArticle_seen_ext history titles now st art
      rw [hstep] at hext
      exact hext
    cases o with
    | none =>
      simp only [Option.toList_none, List.nil_append]
      refine ⟨⟨l1 ++ l2, by rw [hl2, hl1, List.append_assoc]⟩, ?_, hpw2, ?_⟩
      · intro x hx
        refine ⟨(hmem2 x hx).1, fun hmem => (hmem2 x hx).2 ?_⟩
        rw [hl1]
        exact List.mem_append_left _ hmem
      · obtain ⟨sub, hsub, hf⟩ := hann2
        exact ⟨sub, hsub.cons _, hf⟩
    | some x =>
      obtain ⟨hanno, hfpx, hnot, hseen1⟩ :=
        processArticle_some_spec history titles now st art st1 x hstep
      simp only [Option.toList_some, List.singleton_append]
      refine ⟨⟨l1 ++ l2, by rw [hl2, hl1, List.append_assoc]⟩, ?_, ?_, ?_⟩
      · intro y hy
        rcases List.mem_cons.mp hy with hyx | hy2
        · subst hyx
          constructor
          · rw [hl2]
            apply List.mem_append_left
            rw [hseen1, hfpx]
            exact List.mem_append_right _ (by simp)
          · rw [hfpx]
            exact hnot
        · refine ⟨(hmem2 y hy2).1, fun hmem => (hmem2 y hy2).2 ?_⟩
          rw [hl1]
          exact List.mem_append_left _ hmem
      · refine List.Pairwise.cons ?_ hpw2
        intro y hy2 heq
        have h1 : fpOf y ∉ st1.seen := (hmem2 y hy2).2
        have h2 : fpOf x ∈ st1.seen := by
          rw [hseen1, hfpx]
          exact List.mem_append_right _ (by simp)
        rw [← heq] at h1
        exact h1 h2
      · obtain ⟨sub, hsub, hf⟩ := hann2
        exact ⟨art :: sub, hsub.cons₂ _, List.Forall₂.cons hanno hf⟩

lemma processCats_inv (history : List HistRecord)
    (titles : List (String × HistRecord)) (now : String) :
    ∀ (cs : List (String × List Article)) (st : DedupSt),
      (∃ l, (processCats history titles now st cs).1.seen =
        st.seen ++ l) ∧
      (processCats history titles now st cs).2.map Prod.fst =
        cs.map Prod.fst ∧
      List.Forall₂ (fun p q => p.1 = q.1 ∧ AnnSub p.2 q.2) cs
        (processCats history titles now st cs).2 ∧
      (∀ x ∈ ((processCats history titles now st cs).2.map Prod.snd).flatten,
        fpOf x ∈ (processCats history titles now st cs).1.seen ∧
        fpOf x ∉ st.seen) ∧
      List.Pairwise (fun x y => fpOf x ≠ fpOf y)
        (((processCats history titles now st cs).2.map Prod.snd).flatten)
  | [], st => by
    refine ⟨⟨[], by simp [processCats]⟩, by simp [processCats], ?_,
      by simp [processCats], by simp [processCats]⟩
    show List.Forall₂ _ [] (processCats history titles now st []).2
    exact List.Forall₂.nil
  | (c, arts) :: rest, st => by
    obtain ⟨⟨lA, hlA⟩, hmemA, hpwA, hannA⟩ :=
      processList_inv history titles now arts st
    obtain ⟨⟨lB, hlB⟩, hkeysB, hfB, hmemB, hpwB⟩ :=
      processCats_inv history titles now rest
        (processList history titles now st arts).1
    rw [processCats_cons]
    simp only [List.map_cons, List.flatten_cons]
    refine ⟨⟨lA ++ lB, by rw [hlB, hlA, List.append_assoc]⟩,
      by rw [hkeysB], List.Forall₂.cons ⟨rfl, hannA⟩ hfB,
      ?_, ?_⟩
    · intro x hx
      rcases List.mem_append.mp hx with hx1 | hx2
      · refine ⟨?_, (hmemA x hx1).2⟩
        rw [hlB]
        exact List.mem_append_left _ (hmemA x hx1).1
      · refine ⟨(hmemB x hx2).1, fun hmem => (hmemB x hx2).2 ?_⟩
        rw [hlA]
        exact List.mem_append_left _ hmem
    · rw [List.pairwise_append]
      refine ⟨hpwA, hpwB, fun x hx1 y hy2 heq => ?_⟩
      have h1 : fpOf y ∉ (processList history titles now st arts).1.seen :=
        (hmemB y hy2).2
      have h2 : fpOf x ∈ (processList history titles now st arts).1.seen :=
        (hmemA x hx1).1
      rw [← heq] at h1
      exact h1 h2

/-- C3: one run of `deduplicate` keeps exactly the input's category keys
in order; each output list is an in-order selection of the corresponding
input list with items possibly update-annotated; no two accepted items
across all categories share a URL fingerprint; a candidate whose
fingerprint is already in the batch `seen` set is dropped with the state
unchanged, and every valid candidate's fingerprint is in `seen` after its
step — so when two candidates share a fingerprint only the first can be
accepted. -/
theorem C3_run_invariants (now : String) (history : List HistRecord)
    (cats : List (String × List Article)) :
    (deduplicate now history cats).1.map Prod.fst = cats.map Prod.fst ∧
    List.Forall₂ (fun p q => p.1 = q.1 ∧ AnnSub p.2 q.2) cats
      (deduplicate now history cats).1 ∧
    List.Pairwise (fun x y => fpOf x ≠ fpOf y)
      (((deduplicate now history cats).1.map Prod.snd).flatten) ∧
    (∀ (st : DedupSt) (art : Article), fpOf art ∈ st.seen →
      processArticle history (histTitles history) now st art = (st, none)) ∧
    (∀ (st : DedupSt) (art : Article),
      pyStripS art.title ≠ "" → pyStripS art.url ≠ "" →
      fpOf art ∈
        (processArticle history (histTitles history) now st art).1.seen) := by
  obtain ⟨_, hkeys, hf, _, hpw⟩ :=
    processCats_inv history (histTitles history) now cats ⟨[], []⟩
  exact ⟨hkeys, hf, hpw,
    fun st art h =>
      processArticle_seen_drop history (histTitles history) now st art h,
    fun st art ht hu =>
      processArticle_marks_seen history (histTitles history) now st art ht hu⟩

/-- C3 witness: two candidates in one run whose URLs differ only by a
trailing slash share a fingerprint, and only the first survives; a step
run on a state that has already seen the fingerprint is a no-op drop. -/
theorem C3_witness :
    (deduplicate "T1" [] [("c",
      [⟨"A", "http://a.com/x", "d", "s", "p"⟩,
       ⟨"B", "http://a.com/x/", "d2", "s", "p"⟩])]).1 =
      [("c", [⟨"A", "http://a.com/x", "d", "s", "p"⟩])] ∧
    processArticle [] (histTitles []) "T1"
      ⟨[fpOf ⟨"B", "http://a.com/x/", "d2", "s", "p"⟩], []⟩
      ⟨"B", "http://a.com/x/", "d2", "s", "p"⟩ =
      (⟨[fpOf ⟨"B", "http://a.com/x/", "d2", "s", "p"⟩], []⟩, none) :=
  ⟨by decide,
   (C3_run_invariants "T1" [] []).2.2.2.1
     ⟨[fpOf ⟨"B", "http://a.com/x/", "d2", "s", "p"⟩], []⟩
     ⟨"B", "http://a.com/x/", "d2", "s", "p"⟩ (by simp)⟩
